import Mathlib

/-
Verification of the double-entry water-tank ledger (src/main.py).

The Python class DoubleEntryLedger keeps an append-only list of
transaction records and a dict from account name to signed balance.
Python dicts preserve insertion order and `d.get(k, 0)` defaults to 0;
we embed the dict as an association list with first-occurrence lookup
and in-place update (append on a fresh key), which is exactly the
observable behaviour of a Python dict with unique keys.  Amounts are
embedded as integers (exact arithmetic, as in the demo driver).
-/

namespace DoubleLedger

/-- One transaction record, the dict literal built in
`DoubleEntryLedger.record_transfer`: description, from, to, amount. -/
structure Transaction where
  description : String
  from_account : String
  to_account : String
  amount : Int
deriving DecidableEq, Repr

/-- The balance table: Python dict from account name to signed balance,
as an insertion-ordered association list. -/
abbrev Balances := List (String × Int)

/-- Python `d.get(k, dflt)`: value at the first occurrence of `k`, else `dflt`. -/
def dictGet (d : Balances) (k : String) (dflt : Int) : Int :=
  match d with
  | [] => dflt
  | p :: rest => if p.1 = k then p.2 else dictGet rest k dflt

/-- Python `d[k] = v`: overwrite the first occurrence of `k` in place,
or append `(k, v)` when `k` is not yet a key. -/
def dictSet (d : Balances) (k : String) (v : Int) : Balances :=
  match d with
  | [] => [(k, v)]
  | p :: rest => if p.1 = k then (k, v) :: rest else p :: dictSet rest k v

/-- Python `d.keys()` in insertion order. -/
def dictKeys (d : Balances) : List String :=
  d.map Prod.fst

/-- Python `d.values()` in insertion order. -/
def dictValues (d : Balances) : List Int :=
  d.map Prod.snd

/-- The ledger state: `self.transactions` and `self.balances` of the
Python class `DoubleEntryLedger`. -/
structure DoubleEntryLedger where
  transactions : List Transaction
  balances : Balances
deriving DecidableEq, Repr

/-- `DoubleEntryLedger.__init__`: empty history, empty balance table. -/
def DoubleEntryLedger.init : DoubleEntryLedger :=
  { transactions := [], balances := [] }

/-- `DoubleEntryLedger.record_transfer`: append the record, then
`balances[from_account] = balances.get(from_account, 0) - amount` and
`balances[to_account] = balances.get(to_account, 0) + amount`.
The print statements are presentation only and have no state effect. -/
def record_transfer (l : DoubleEntryLedger) (description from_account to_account : String)
    (amount : Int) : DoubleEntryLedger :=
  let transactions := l.transactions ++ [⟨description, from_account, to_account, amount⟩]
  let b1 := dictSet l.balances from_account (dictGet l.balances from_account 0 - amount)
  let b2 := dictSet b1 to_account (dictGet b1 to_account 0 + amount)
  { transactions := transactions, balances := b2 }

/-- `DoubleEntryLedger.get_balance`: `self.balances.get(account, 0)`. -/
def get_balance (l : DoubleEntryLedger) (account : String) : Int :=
  dictGet l.balances account 0

/-- `DoubleEntryLedger.verify_conservation`: returns
`sum(self.balances.values())` (the print is presentation only). -/
def verify_conservation (l : DoubleEntryLedger) : Int :=
  (dictValues l.balances).sum

/-- One call of the demo driver, `ledger.record_transfer(...)` with the
call's four arguments. -/
def applyCall (l : DoubleEntryLedger) (c : Transaction) : DoubleEntryLedger :=
  record_transfer l c.description c.from_account c.to_account c.amount

/-- The ledger state reached from a fresh ledger by a sequence of
`record_transfer` calls. -/
def runTransfers (calls : List Transaction) : DoubleEntryLedger :=
  calls.foldl applyCall DoubleEntryLedger.init

/-- From `print_dynamic_verification`:
`gained = sum(t.amount for t in transactions if t.to == account)`. -/
def gained (l : DoubleEntryLedger) (account : String) : Int :=
  ((l.transactions.filter fun t => t.to_account == account).map Transaction.amount).sum

/-- From `print_dynamic_verification`:
`lost = sum(t.amount for t in transactions if t.from == account)`. -/
def lost (l : DoubleEntryLedger) (account : String) : Int :=
  ((l.transactions.filter fun t => t.from_account == account).map Transaction.amount).sum

/-- Append an account to a first-seen list if it is not already present. -/
def addAccount (acc : List String) (a : String) : List String :=
  if a ∈ acc then acc else acc ++ [a]

/-- Modelled from the spec: the order in which `list_balances()` is required
to enumerate accounts — first-seen order over the transfer history, the
source of each transfer encountered before its destination.  The repo has
no separate `list_balances`; the spec realises it as iteration over
`self.balances.items()`, whose key order the theorem below compares with
this definition. -/
def firstSeenAccounts (ts : List Transaction) : List String :=
  ts.foldl (fun acc t => addAccount (addAccount acc t.from_account) t.to_account) []

/- ### Dictionary lemmas -/

theorem dictGet_dictSet (d : Balances) (k k' : String) (v : Int) :
    dictGet (dictSet d k v) k' 0 = if k' = k then v else dictGet d k' 0 := by
  induction d with
  | nil =>
    by_cases h : k' = k
    · subst h; simp [dictSet, dictGet]
    · have h2 : ¬ k = k' := fun hh => h hh.symm
      simp [dictSet, dictGet, h, h2]
  | cons p rest ih =>
    by_cases hp : p.1 = k
    · subst hp
      by_cases h : k' = p.1
      · subst h; simp [dictSet, dictGet]
      · have h2 : ¬ p.1 = k' := fun hh => h hh.symm
        simp [dictSet, dictGet, h, h2]
    · by_cases hpk : p.1 = k'
      · subst hpk
        have h : ¬ p.1 = k := hp
        simp [dictSet, dictGet, hp, fun hh => hp hh]
      · simp [dictSet, dictGet, hp, hpk, ih]

theorem sum_dictValues_dictSet (d : Balances) (k : String) (v : Int) :
    (dictValues (dictSet d k v)).sum = (dictValues d).sum + v - dictGet d k 0 := by
  induction d with
  | nil => simp [dictSet, dictValues, dictGet]
  | cons p rest ih =>
    simp only [dictValues] at ih ⊢
    by_cases hp : p.1 = k
    · simp only [dictSet, if_pos hp, List.map_cons, List.sum_cons, dictGet]
      omega
    · simp only [dictSet, if_neg hp, List.map_cons, List.sum_cons, ih, dictGet]
      omega

theorem dictKeys_dictSet (d : Balances) (k : String) (v : Int) :
    dictKeys (dictSet d k v) = addAccount (dictKeys d) k := by
  induction d with
  | nil => simp [dictSet, dictKeys, addAccount]
  | cons p rest ih =>
    simp only [dictKeys] at ih ⊢
    by_cases hp : p.1 = k
    · subst hp
      simp [dictSet, addAccount]
    · simp only [dictSet, if_neg hp, List.map_cons]
      rw [ih]
      have hk : ¬ k = p.1 := fun hh => hp hh.symm
      by_cases hmem : k ∈ List.map Prod.fst rest
      · simp [addAccount, hmem, hk]
      · simp [addAccount, hmem, hk]

theorem dictGet_of_not_mem_keys (d : Balances) (k : String) (h : k ∉ dictKeys d) :
    dictGet d k 0 = 0 := by
  induction d with
  | nil => rfl
  | cons p rest ih =>
    simp only [dictKeys, List.map_cons, List.mem_cons, not_or] at h
    have hp : ¬ p.1 = k := fun hh => h.1 hh.symm
    simp only [dictGet, if_neg hp]
    exact ih (by simpa [dictKeys] using h.2)

/- ### Step lemmas for record_transfer -/

theorem record_transfer_transactions_eq (l : DoubleEntryLedger) (d f t : String) (x : Int) :
    (record_transfer l d f t x).transactions = l.transactions ++ [⟨d, f, t, x⟩] := rfl

theorem get_balance_record_transfer (l : DoubleEntryLedger) (d f t : String) (x : Int)
    (a : String) :
    get_balance (record_transfer l d f t x) a =
      get_balance l a - (if a = f then x else 0) + (if a = t then x else 0) := by
  simp only [get_balance, record_transfer, dictGet_dictSet]
  by_cases h1 : a = t
  · subst h1
    by_cases h2 : a = f
    · subst h2
      simp
    · simp only [if_pos rfl, if_neg h2, if_true]
      omega
  · by_cases h2 : a = f
    · subst h2
      simp only [if_neg h1, if_pos rfl, if_true]
      omega
    · simp only [if_neg h1, if_neg h2]
      omega

theorem verify_conservation_record_transfer (l : DoubleEntryLedger) (d f t : String) (x : Int) :
    verify_conservation (record_transfer l d f t x) = verify_conservation l := by
  simp only [verify_conservation, record_transfer, sum_dictValues_dictSet, dictGet_dictSet]
  by_cases h : t = f
  · simp only [if_pos h]
    omega
  · simp only [if_neg h]
    omega

theorem dictKeys_record_transfer (l : DoubleEntryLedger) (d f t : String) (x : Int) :
    dictKeys (record_transfer l d f t x).balances =
      addAccount (addAccount (dictKeys l.balances) f) t := by
  simp only [record_transfer, dictKeys_dictSet]

/- ### Fold lemmas over call sequences -/

theorem foldl_transactions (cs : List Transaction) :
    ∀ l : DoubleEntryLedger, (cs.foldl applyCall l).transactions = l.transactions ++ cs := by
  induction cs with
  | nil => intro l; simp
  | cons c cs ih =>
    intro l
    rw [List.foldl_cons, ih]
    show (l.transactions ++ [c]) ++ cs = l.transactions ++ (c :: cs)
    simp

theorem runTransfers_transactions (cs : List Transaction) :
    (runTransfers cs).transactions = cs := by
  simpa [DoubleEntryLedger.init] using foldl_transactions cs DoubleEntryLedger.init

theorem verify_foldl (cs : List Transaction) :
    ∀ l : DoubleEntryLedger,
      verify_conservation (cs.foldl applyCall l) = verify_conservation l := by
  induction cs with
  | nil => intro l; rfl
  | cons c cs ih =>
    intro l
    rw [List.foldl_cons, ih]
    exact verify_conservation_record_transfer l c.description c.from_account c.to_account
      c.amount

theorem gained_record_transfer (l : DoubleEntryLedger) (d f t : String) (x : Int)
    (a : String) :
    gained (record_transfer l d f t x) a = gained l a + (if a = t then x else 0) := by
  simp only [gained, record_transfer_transactions_eq, List.filter_append, List.map_append,
    List.sum_append]
  by_cases h : a = t
  · subst h
    simp [List.filter]
  · have h2 : (t == a) = false := by
      simpa using fun hh : t = a => h hh.symm
    simp [List.filter, h, h2]

theorem lost_record_transfer (l : DoubleEntryLedger) (d f t : String) (x : Int)
    (a : String) :
    lost (record_transfer l d f t x) a = lost l a + (if a = f then x else 0) := by
  simp only [lost, record_transfer_transactions_eq, List.filter_append, List.map_append,
    List.sum_append]
  by_cases h : a = f
  · subst h
    simp [List.filter]
  · have h2 : (f == a) = false := by
      simpa using fun hh : f = a => h hh.symm
    simp [List.filter, h, h2]

theorem reconstruction_foldl (cs : List Transaction) :
    ∀ l : DoubleEntryLedger, (∀ a, get_balance l a = gained l a - lost l a) →
      ∀ a, get_balance (cs.foldl applyCall l) a =
        gained (cs.foldl applyCall l) a - lost (cs.foldl applyCall l) a := by
  induction cs with
  | nil => intro l h; exact h
  | cons c cs ih =>
    intro l h
    rw [List.foldl_cons]
    apply ih
    intro a
    simp only [applyCall]
    rw [get_balance_record_transfer, gained_record_transfer, lost_record_transfer, h a]
    split_ifs <;> omega

/- ### Claim theorems -/

/-- C1.  Conservation: starting from a fresh ledger, after any sequence of
`record_transfer` calls with arbitrary arguments, `verify_conservation`
returns 0 — the sum of all values in the balance table is 0 in every
reachable ledger state (and hence after every call, each prefix of the
sequence being itself a sequence of calls). -/
theorem conservation_invariant (calls : List Transaction) :
    verify_conservation (runTransfers calls) = 0 :=
  (verify_foldl calls DoubleEntryLedger.init).trans rfl

/-- C2.  Balance reconstruction: in every reachable ledger state and for
every account `a`, `get_balance a` equals the sum of amounts of recorded
transfers into `a` minus the sum of amounts of recorded transfers out of
`a`, as computed by `print_dynamic_verification`. -/
theorem balance_reconstruction (cs : List Transaction) (a : String) :
    get_balance (runTransfers cs) a =
      gained (runTransfers cs) a - lost (runTransfers cs) a :=
  reconstruction_foldl cs DoubleEntryLedger.init (fun _ => rfl) a

/-- C4.  Self transfer: recording a transfer whose source and destination
are the same account leaves that account's balance unchanged (the
destination update reads the balance already decremented by the source
update). -/
theorem self_transfer_net_zero (l : DoubleEntryLedger) (d A : String) (x : Int) :
    get_balance (record_transfer l d A A x) A = get_balance l A := by
  rw [get_balance_record_transfer]
  simp

/-- Ledger state after step 1 of the spec's four-transfer scenario. -/
def scenario1 : DoubleEntryLedger :=
  record_transfer DoubleEntryLedger.init ("fill") ("Reservoir") ("TankA") 100

/-- Ledger state after step 2 of the spec's four-transfer scenario. -/
def scenario2 : DoubleEntryLedger :=
  record_transfer scenario1 ("move") ("TankA") ("TankB") 30

/-- Ledger state after step 3 of the spec's four-transfer scenario. -/
def scenario3 : DoubleEntryLedger :=
  record_transfer scenario2 ("pump") ("Pump") ("TankA") 20

/-- Ledger state after step 4 of the spec's four-transfer scenario. -/
def scenario4 : DoubleEntryLedger :=
  record_transfer scenario3 ("leak") ("TankB") ("Environment") 5

/-- C3.  The spec's four-transfer scenario, started from an empty ledger,
yields exactly the stated balances after each step, conservation 0 at each
step shown, and a final sum of 0 over the five accounts. -/
theorem water_tank_scenario :
    get_balance scenario1 ("Reservoir") = -100 ∧
    get_balance scenario1 ("TankA") = 100 ∧
    verify_conservation scenario1 = 0 ∧
    get_balance scenario2 ("TankA") = 70 ∧
    get_balance scenario2 ("TankB") = 30 ∧
    verify_conservation scenario2 = 0 ∧
    get_balance scenario3 ("TankA") = 90 ∧
    get_balance scenario3 ("Pump") = -20 ∧
    verify_conservation scenario3 = 0 ∧
    get_balance scenario4 ("TankB") = 25 ∧
    get_balance scenario4 ("Environment") = 5 ∧
    verify_conservation scenario4 = 0 ∧
    get_balance scenario4 ("Reservoir") + get_balance scenario4 ("TankA") +
      get_balance scenario4 ("TankB") + get_balance scenario4 ("Pump") +
      get_balance scenario4 ("Environment") = 0 := by
  decide

/-- C5.  Frame: every `record_transfer` call appends exactly one record
carrying the four arguments unmodified and leaves the earlier records in
place; hence the history length always equals the number of calls made;
and only the balances of `from_account` and `to_account` are touched —
every other account's balance is unchanged. -/
theorem record_transfer_frame :
    (∀ (l : DoubleEntryLedger) (d f t : String) (x : Int),
        (record_transfer l d f t x).transactions = l.transactions ++ [⟨d, f, t, x⟩]) ∧
    (∀ cs : List Transaction, (runTransfers cs).transactions.length = cs.length) ∧
    (∀ (l : DoubleEntryLedger) (d f t : String) (x : Int) (a : String),
        a ≠ f → a ≠ t → get_balance (record_transfer l d f t x) a = get_balance l a) := by
  refine ⟨fun l d f t x => rfl, fun cs => by rw [runTransfers_transactions], ?_⟩
  intro l d f t x a hf ht
  rw [get_balance_record_transfer, if_neg hf, if_neg ht]
  omega

/-- Witness for C5 at a concrete input: a third account is untouched by a
transfer between two others. -/
theorem record_transfer_frame_witness :
    get_balance (record_transfer DoubleEntryLedger.init ("d") ("A") ("B") 5) ("C") =
      get_balance DoubleEntryLedger.init ("C") :=
  record_transfer_frame.2.2 DoubleEntryLedger.init ("d") ("A") ("B") 5 ("C")
    (by decide) (by decide)

/-- C6.  Totality: `record_transfer` accepts every input — any ledger
state, zero or negative amounts, equal source and destination, previously
unseen accounts — and performs its normal effect (the embedded operation
is a total function; the Python body has no raising path: `dict.get`,
`list.append` and item assignment are total on these inputs). -/
theorem record_transfer_total (l : DoubleEntryLedger) (d f t : String) (x : Int) :
    (record_transfer l d f t x).transactions = l.transactions ++ [⟨d, f, t, x⟩] ∧
    ∀ a, get_balance (record_transfer l d f t x) a =
      get_balance l a - (if a = f then x else 0) + (if a = t then x else 0) :=
  ⟨rfl, fun a => get_balance_record_transfer l d f t x a⟩

theorem unreferenced_foldl (cs : List Transaction) :
    ∀ (l : DoubleEntryLedger) (a : String), get_balance l a = 0 →
      (∀ tr ∈ cs, tr.from_account ≠ a ∧ tr.to_account ≠ a) →
      get_balance (cs.foldl applyCall l) a = 0 := by
  induction cs with
  | nil => intro l a h _; exact h
  | cons c cs ih =>
    intro l a h hall
    rw [List.foldl_cons]
    apply ih
    · have hc := hall c (List.mem_cons_self c cs)
      simp only [applyCall]
      rw [get_balance_record_transfer, if_neg (fun hh => hc.1 hh.symm),
        if_neg (fun hh => hc.2 hh.symm), h]
      omega
    · intro tr htr
      exact hall tr (List.mem_cons_of_mem c htr)

/-- C7.  An account that has never appeared as source or destination of any
recorded transfer has balance 0 in every reachable ledger state.  (The
read is pure by construction in this embedding: `get_balance` returns a
number and produces no new state.) -/
theorem unreferenced_account_balance_zero (cs : List Transaction) (a : String)
    (h : ∀ tr ∈ (runTransfers cs).transactions,
      tr.from_account ≠ a ∧ tr.to_account ≠ a) :
    get_balance (runTransfers cs) a = 0 := by
  apply unreferenced_foldl cs DoubleEntryLedger.init a rfl
  intro tr htr
  exact h tr (by rw [runTransfers_transactions]; exact htr)

/-- Witness for C7 at a concrete input: an account not referenced by the
single recorded transfer reads as 0. -/
theorem unreferenced_account_balance_zero_witness :
    get_balance (runTransfers [⟨("d"), ("A"), ("B"), 3⟩]) ("C") = 0 :=
  unreferenced_account_balance_zero [⟨("d"), ("A"), ("B"), 3⟩] ("C") (by decide)

theorem keys_foldl (cs : List Transaction) :
    ∀ l : DoubleEntryLedger, dictKeys (cs.foldl applyCall l).balances =
      cs.foldl (fun acc tr => addAccount (addAccount acc tr.from_account) tr.to_account)
        (dictKeys l.balances) := by
  induction cs with
  | nil => intro l; rfl
  | cons c cs ih =>
    intro l
    rw [List.foldl_cons, List.foldl_cons, ih]
    congr 1
    exact dictKeys_record_transfer l c.description c.from_account c.to_account c.amount

/-- C8.  Order preservation: in every reachable ledger state, iterating
the balance table (the spec's `list_balances`, realised by
`self.balances.items()`) enumerates the accounts in first-seen order over
the transfer history, the source of each transfer encountered before its
destination. -/
theorem list_balances_first_seen_order (cs : List Transaction) :
    dictKeys (runTransfers cs).balances = firstSeenAccounts (runTransfers cs).transactions := by
  rw [runTransfers_transactions]
  exact keys_foldl cs DoubleEntryLedger.init

/-- C9.  A negative amount inverts the transfer's direction: for distinct
accounts `A` and `B`, recording a transfer of `-x` from `A` to `B` leaves
every account with the same balance as recording a transfer of `x` from
`B` to `A`. -/
theorem negative_amount_inverts (l : DoubleEntryLedger) (d A B : String) (x : Int)
    (_hAB : A ≠ B) (a : String) :
    get_balance (record_transfer l d A B (-x)) a =
      get_balance (record_transfer l d B A x) a := by
  rw [get_balance_record_transfer, get_balance_record_transfer]
  split_ifs <;> omega

/-- Witness for C9 at a concrete input: transferring -7 from A to B equals
transferring 7 from B to A, observed at account A. -/
theorem negative_amount_inverts_witness :
    get_balance (record_transfer DoubleEntryLedger.init ("d") ("A") ("B") (-(7 : Int)))
        ("A") =
      get_balance (record_transfer DoubleEntryLedger.init ("d") ("B") ("A") 7) ("A") :=
  negative_amount_inverts DoubleEntryLedger.init ("d") ("A") ("B") 7 (by decide) ("A")

theorem addAccount_exists_suffix (acc : List String) (a : String) :
    ∃ s, addAccount acc a = acc ++ s := by
  by_cases h : a ∈ acc
  · exact ⟨[], by simp [addAccount, h]⟩
  · exact ⟨[a], by simp [addAccount, h]⟩

theorem mem_addAccount (acc : List String) (a b : String) :
    a ∈ addAccount acc b ↔ a ∈ acc ∨ b = a := by
  by_cases h : b ∈ acc
  · simp only [addAccount, if_pos h]
    constructor
    · exact Or.inl
    · rintro (ha | rfl)
      · exact ha
      · exact h
  · simp only [addAccount, if_neg h, List.mem_append, List.mem_singleton]
    constructor
    · rintro (ha | rfl)
      · exact Or.inl ha
      · exact Or.inr rfl
    · rintro (ha | rfl)
      · exact Or.inl ha
      · exact Or.inr rfl

theorem mem_foldl_addAccount (ts : List Transaction) :
    ∀ (acc : List String) (a : String),
      a ∈ ts.foldl
          (fun acc tr => addAccount (addAccount acc tr.from_account) tr.to_account) acc ↔
        a ∈ acc ∨ ∃ tr ∈ ts, tr.from_account = a ∨ tr.to_account = a := by
  induction ts with
  | nil => intro acc a; simp
  | cons c ts ih =>
    intro acc a
    simp only [List.foldl_cons, ih, mem_addAccount, List.mem_cons]
    constructor
    · rintro (((h | h) | h) | ⟨tr, htr, hor⟩)
      · exact Or.inl h
      · exact Or.inr ⟨c, Or.inl rfl, Or.inl h⟩
      · exact Or.inr ⟨c, Or.inl rfl, Or.inr h⟩
      · exact Or.inr ⟨tr, Or.inr htr, hor⟩
    · rintro (h | ⟨tr, htr, hor⟩)
      · exact Or.inl (Or.inl (Or.inl h))
      · rcases htr with rfl | htr
        · rcases hor with h | h
          · exact Or.inl (Or.inl (Or.inr h))
          · exact Or.inl (Or.inr h)
        · exact Or.inr ⟨tr, htr, hor⟩

/-- C10.  The balance table's key set only grows: each `record_transfer`
call extends the key list (in place, possibly appending new keys at the
end), and in every reachable state an account is a key of the balance
table exactly when some recorded transfer references it as source or
destination — so an account whose balance has returned to 0 still appears
in the enumeration, while a never-referenced account is absent; no
operation removes a balance entry. -/
theorem balance_keys_monotone :
    (∀ (l : DoubleEntryLedger) (d f t : String) (x : Int),
        ∃ s, dictKeys (record_transfer l d f t x).balances = dictKeys l.balances ++ s) ∧
    (∀ (cs : List Transaction) (a : String),
        a ∈ dictKeys (runTransfers cs).balances ↔
          ∃ tr ∈ (runTransfers cs).transactions,
            tr.from_account = a ∨ tr.to_account = a) := by
  constructor
  · intro l d f t x
    rw [dictKeys_record_transfer]
    obtain ⟨s1, h1⟩ := addAccount_exists_suffix (dictKeys l.balances) f
    obtain ⟨s2, h2⟩ := addAccount_exists_suffix (addAccount (dictKeys l.balances) f) t
    exact ⟨s1 ++ s2, by rw [h2, h1, List.append_assoc]⟩
  · intro cs a
    rw [runTransfers_transactions]
    have hkeys : dictKeys (runTransfers cs).balances =
        cs.foldl
          (fun acc tr => addAccount (addAccount acc tr.from_account) tr.to_account) [] :=
      keys_foldl cs DoubleEntryLedger.init
    rw [hkeys]
    have hmem := mem_foldl_addAccount cs [] a
    simpa using hmem

end DoubleLedger
